import Mathlib

/-!
Verification of the RISC-V capability/primitive layer of xmrig (files
src/crypto/riscv/riscv_crypto.h, src/crypto/riscv/riscv_rvv.h,
src/crypto/riscv/riscv_memory.h, src/crypto/rx/RxDataset_riscv.h).

Memory buffers are modelled as functions from byte offset to stored byte
value; machine integers are modelled as Nat (resp. Int where the C type is
signed) with explicit reductions mod powers of two where C unsigned
arithmetic wraps.  Each C function that exists in two build variants
(XMRIG_RISCV vs fallback, RVV vs scalar) is embedded once per variant.
-/

namespace XmrigRiscv

/-! ## Definitions: riscv_crypto.h -/

/-- riscv_add_uw on the XMRIG_RISCV build without Zba (riscv_crypto.h line 159):
`((a & 0xFFFFFFFF) + (b & 0xFFFFFFFF)) & 0xFFFFFFFF`. -/
def riscv_add_uw_riscv (a b : Nat) : Nat :=
  ((a &&& 0xFFFFFFFF) + (b &&& 0xFFFFFFFF)) &&& 0xFFFFFFFF

/-- riscv_add_uw on the non-RISC-V fallback build (riscv_crypto.h line 178):
`(a & 0xFFFFFFFF) + (b & 0xFFFFFFFF)`.  The uint64 sum of two 32-bit values
never wraps, so no mod 2^64 is needed. -/
def riscv_add_uw_fallback (a b : Nat) : Nat :=
  (a &&& 0xFFFFFFFF) + (b &&& 0xFFFFFFFF)

/-- riscv_rotr32, scalar form (riscv_crypto.h lines 106 and 174):
`(x >> r) | (x << (32 - r))` on uint32, i.e. reduced mod 2^32. -/
def riscv_rotr32 (x r : Nat) : Nat :=
  ((x >>> r) ||| (x <<< (32 - r))) % 2 ^ 32

/-- The two 256-entry substitution tables of riscv_crypto.h (lines 70-75).
The concrete contents of the extern constant riscv_aes_tables live in a
translation unit outside the given sources, so the table is carried as an
explicit parameter; every claim below holds for arbitrary table contents. -/
structure riscv_aes_sbox_t where
  sbox_enc : Nat → Nat
  sbox_dec : Nat → Nat

/-- riscv_aes_enc_round (riscv_crypto.h lines 78-94): per-byte table lookups
combined by XOR, then XOR with the round key. -/
def riscv_aes_enc_round (tables : riscv_aes_sbox_t) (input round_key : Nat) : Nat :=
  let b0 := (input >>> 0) &&& 0xFF
  let b1 := (input >>> 8) &&& 0xFF
  let b2 := (input >>> 16) &&& 0xFF
  let b3 := (input >>> 24) &&& 0xFF
  (tables.sbox_enc b0 ^^^ tables.sbox_enc b1 ^^^ tables.sbox_enc b2 ^^^
    tables.sbox_enc b3) ^^^ round_key

/-- Little-endian assembly of a list of bytes into a word, least significant
byte first. -/
def assembleLE : List Nat → Nat
  | [] => 0
  | b :: rest => b + 256 * assembleLE rest

/-- XOR of all elements of a list. -/
def xorList (l : List Nat) : Nat := l.foldr (fun x y => x ^^^ y) 0

/-! ## Definitions: RxDataset_riscv.h -/

/-- riscv_optimal_init_threads on the XMRIG_RISCV build (RxDataset_riscv.h
lines 54-60).  The argument and the product are uint32, so the
multiplication wraps mod 2^32. -/
def riscv_optimal_init_threads_riscv (available_threads : Nat) : Nat :=
  let recommended := available_threads * 3 % 2 ^ 32 / 4
  if recommended > 0 then recommended else 1

/-- riscv_optimal_init_threads on the non-RISC-V fallback build
(RxDataset_riscv.h line 113): returns the argument unchanged. -/
def riscv_optimal_init_threads_fallback (available : Nat) : Nat := available

/-- get_optimal_cpu_core on the XMRIG_RISCV build (RxDataset_riscv.h lines
96-101).  The processor count that sysconf reports is an environment input
and is passed as the parameter nprocs; C's % on signed operands truncates
toward zero, which is Int.tmod. -/
def get_optimal_cpu_core_riscv (thread_id nprocs : Int) : Int :=
  let n := if nprocs ≤ 0 then 1 else nprocs
  Int.tmod thread_id n

/-- get_optimal_cpu_core on the non-RISC-V fallback build (RxDataset_riscv.h
line 116): returns the thread id unchanged. -/
def get_optimal_cpu_core_fallback (thread_id : Int) : Int := thread_id

/-- Pointwise store of one byte. -/
def setByte (m : Nat → Nat) (addr v : Nat) : Nat → Nat :=
  fun i => if i = addr then v else m i

/-- Little-endian store of a 32-bit value at byte offsets base..base+3, the
effect of the uint32 store `d32[i] = pattern` on (little-endian) RISC-V. -/
def setWord32LE (m : Nat → Nat) (base pattern : Nat) : Nat → Nat :=
  setByte (setByte (setByte (setByte m base (pattern &&& 0xFF))
    (base + 1) ((pattern >>> 8) &&& 0xFF))
    (base + 2) ((pattern >>> 16) &&& 0xFF))
    (base + 3) ((pattern >>> 24) &&& 0xFF)

/-- Semantics of `memset(p + start, v, len)`: bytes start..start+len-1 become
v, all others keep their old value. -/
def fillBytes (m : Nat → Nat) (start len v : Nat) : Nat → Nat :=
  fun i => if start ≤ i ∧ i < start + len then v else m i

/-- Semantics of `memcpy(dst + start, src + start, len)` between two disjoint
buffers: bytes start..start+len-1 of dst take the corresponding bytes of
src, all others keep dst's value. -/
def copyBytes (dm sm : Nat → Nat) (start len : Nat) : Nat → Nat :=
  fun i => if start ≤ i ∧ i < start + len then sm i else dm i

/-- The strip-mined store loop of riscv_memset_rvv (riscv_rvv.h lines
103-108): stores the 32-bit pattern to words w, w+1, ..., w+fuel-1.  vsetvl
only chooses how many words one iteration handles and every word receives
the same value, so the loop is modelled one word per step. -/
def rvvFillWords (pattern : Nat) : (Nat → Nat) → Nat → Nat → Nat → Nat
  | m, _, 0 => m
  | m, w, fuel + 1 => rvvFillWords pattern (setWord32LE m (4 * w) pattern) (w + 1) fuel

/-- riscv_memset_rvv on the RVV build (riscv_rvv.h lines 98-117): fill
size/4 pattern words, then memset the size%4 remainder bytes with the low
pattern byte. -/
def riscv_memset_rvv_rvv (m : Nat → Nat) (pattern size : Nat) : Nat → Nat :=
  let count := size / 4
  let m1 := rvvFillWords pattern m 0 count
  let remainder := size % 4
  if remainder ≠ 0 then fillBytes m1 (size - remainder) remainder (pattern &&& 0xFF) else m1

/-- riscv_memset_rvv on the scalar fallback build (riscv_rvv.h line 227):
`memset(dst, pattern & 0xFF, size)`. -/
def riscv_memset_rvv_scalar (m : Nat → Nat) (pattern size : Nat) : Nat → Nat :=
  fillBytes m 0 size (pattern &&& 0xFF)

/-- The word-copy loop of aligned_memcpy_opt (RxDataset_riscv.h lines 80-92):
while i < chunks it copies the eight 64-bit words i..i+7 (bytes
8*i..8*i+63) from src to dst and advances i by 8.  fuel bounds the number
of iterations; (chunks + 7) / 8 is exact.  The prefetch hint has no effect
on memory contents and is omitted. -/
def alignedCopyLoop (sm : Nat → Nat) (chunks : Nat) : (Nat → Nat) → Nat → Nat → Nat → Nat
  | dm, _, 0 => dm
  | dm, i, fuel + 1 =>
    if i < chunks then alignedCopyLoop sm chunks (copyBytes dm sm (8 * i) 64) (i + 8) fuel
    else dm

/-- aligned_memcpy_opt on the XMRIG_RISCV build (RxDataset_riscv.h lines
73-93): chunks = size/8 words; no handling of the size%8 tail bytes. -/
def aligned_memcpy_opt_riscv (dm sm : Nat → Nat) (size : Nat) : Nat → Nat :=
  alignedCopyLoop sm (size / 8) dm 0 ((size / 8 + 7) / 8)

/-- aligned_memcpy_opt on the non-RISC-V fallback build (RxDataset_riscv.h
line 115): `memcpy(dst, src, size)`. -/
def aligned_memcpy_opt_fallback (dm sm : Nat → Nat) (size : Nat) : Nat → Nat :=
  copyBytes dm sm 0 size

/-! ## Definitions: memory comparison (riscv_memory.h, riscv_rvv.h) -/

/-- Byte-by-byte comparison of len bytes starting at offset j: the signed
difference of the first differing byte pair, else 0. -/
def memcmpBytesAux (a b : Nat → Nat) : Nat → Nat → Int
  | _, 0 => 0
  | j, len + 1 =>
    if a j ≠ b j then (a j : Int) - (b j : Int) else memcmpBytesAux a b (j + 1) len

/-- Byte comparison over offsets start..stop-1. -/
def memcmpBytes (a b : Nat → Nat) (start stop : Nat) : Int :=
  memcmpBytesAux a b start (stop - start)

/-- Semantics of libc `memcmp(a, b, n)`: compares unsigned bytes in
low-to-high address order; modelled as returning the exact difference of
the first differing byte pair (libc only fixes the sign, which is all the
sources and the spec rely on). -/
def memcmpModel (a b : Nat → Nat) (n : Nat) : Int := memcmpBytesAux a b 0 n

/-- Little-endian word formed from k bytes at offsets base..base+k-1. -/
def wordAtAux (m : Nat → Nat) : Nat → Nat → Nat
  | _, 0 => 0
  | base, k + 1 => m base + 256 * wordAtAux m (base + 1) k

/-- The 64-bit word `((const uint64_t *)p)[i]` at byte offset base = 8*i on
little-endian RISC-V. -/
def wordAt (m : Nat → Nat) (base : Nat) : Nat := wordAtAux m base 8

/-- The inner byte scan of riscv_memcmp_fast inside a differing word
(riscv_memory.h lines 188-192): offsets j..j+len-1, first difference if
any. -/
def scanBytesOpt (a b : Nat → Nat) : Nat → Nat → Option Int
  | _, 0 => none
  | j, len + 1 =>
    if a j ≠ b j then some ((a j : Int) - (b j : Int)) else scanBytesOpt a b (j + 1) len

/-- The qword loop of riscv_memcmp_fast (riscv_memory.h lines 183-208); fuel
is the number of remaining word iterations (qwords - i).  When the loop
ends the remainder bytes from offset 8*i are scanned. -/
def memcmpFastAux (a b : Nat → Nat) (n : Nat) : Nat → Nat → Int
  | i, 0 => memcmpBytes a b (8 * i) n
  | i, fuel + 1 =>
    if wordAt a (8 * i) = wordAt b (8 * i) then memcmpFastAux a b n (i + 1) fuel
    else
      match scanBytesOpt a b (8 * i) (min (8 * (i + 1)) n - 8 * i) with
      | some d => d
      | none => memcmpFastAux a b n (i + 1) fuel

/-- riscv_memcmp_fast on the XMRIG_RISCV build (riscv_memory.h lines
177-209). -/
def riscv_memcmp_fast (a b : Nat → Nat) (n : Nat) : Int :=
  memcmpFastAux a b n 0 (n / 8)

/-- riscv_memcmp_fast on the non-RISC-V fallback build (riscv_memory.h line
274): plain memcmp. -/
def riscv_memcmp_fast_fallback (a b : Nat → Nat) (n : Nat) : Int := memcmpModel a b n

/-- The vectorized word-equality scan of riscv_memcmp_rvv: true iff one of
the first count 64-bit words differs.  The vcpop test over a vsetvl chunk
fires iff the chunk holds a differing word, and the function then discards
the chunk position and falls back to a full memcmp, so only this
disjunction is observable. -/
def rvvWordsDiffer (a b : Nat → Nat) : Nat → Bool
  | 0 => false
  | c + 1 => rvvWordsDiffer a b c || (wordAt a (8 * c) != wordAt b (8 * c))

/-- riscv_memcmp_rvv on the RVV build (riscv_rvv.h lines 147-181): if some
word among the first n/8 differs, return memcmp of the whole range;
otherwise compare the n%8 remainder bytes. -/
def riscv_memcmp_rvv (a b : Nat → Nat) (n : Nat) : Int :=
  if rvvWordsDiffer a b (n / 8) then memcmpModel a b n
  else memcmpBytes a b (8 * (n / 8)) n

/-- riscv_memcmp_rvv on the scalar fallback build (riscv_rvv.h line 239):
plain memcmp. -/
def riscv_memcmp_rvv_scalar (a b : Nat → Nat) (n : Nat) : Int := memcmpModel a b n

/-! ## Helper lemmas -/

/-- Unfolding lemma for fillBytes. -/
theorem fillBytes_apply (m : Nat → Nat) (start len v i : Nat) :
    fillBytes m start len v i = if start ≤ i ∧ i < start + len then v else m i := rfl

/-- Unfolding lemma for copyBytes. -/
theorem copyBytes_apply (dm sm : Nat → Nat) (start len i : Nat) :
    copyBytes dm sm start len i = if start ≤ i ∧ i < start + len then sm i else dm i := rfl

/-! ## Claim C2 (code_bug evidence) -/

/-- Claim C2: addZeroExtend32 should truncate both operands, add, and
truncate the sum, identically on both build paths.  The RISC-V scalar path
does exactly that, but the non-RISC-V fallback omits the final truncation:
at a = b = 0xFFFFFFFF it returns 0x1FFFFFFFE instead of 0xFFFFFFFE. -/
theorem riscv_add_uw_divergence :
    riscv_add_uw_riscv 4294967295 4294967295 =
      (4294967295 % 2 ^ 32 + 4294967295 % 2 ^ 32) % 2 ^ 32 ∧
    (4294967295 % 2 ^ 32 + 4294967295 % 2 ^ 32) % 2 ^ 32 = 4294967294 ∧
    riscv_add_uw_fallback 4294967295 4294967295 = 8589934590 := by
  decide

/-! ## Claim C5 -/

/-- Claim C5, counterexample: on the non-RISC-V build
riscv_optimal_init_threads returns its argument unchanged, so at input 8 it
returns 8, not max 1 (8*3/4) = 6 as the claim requires of every build
variant. -/
theorem riscv_optimal_init_threads_counterexample :
    riscv_optimal_init_threads_fallback 8 ≠ max 1 (8 * 3 / 4) := by decide

/-- Claim C5, amended: on the XMRIG_RISCV build, for every input whose
tripling does not overflow uint32, riscv_optimal_init_threads equals
max 1 (floor (available * 3 / 4)); the non-RISC-V fallback build returns
the input unchanged. -/
theorem riscv_optimal_init_threads_spec :
    (∀ a, a * 3 < 2 ^ 32 →
      riscv_optimal_init_threads_riscv a = max 1 (a * 3 / 4)) ∧
    (∀ a, riscv_optimal_init_threads_fallback a = a) := by
  constructor
  · intro a h
    have hdef : riscv_optimal_init_threads_riscv a =
        if a * 3 % 2 ^ 32 / 4 > 0 then a * 3 % 2 ^ 32 / 4 else 1 := rfl
    rw [hdef, Nat.mod_eq_of_lt h]
    split <;> omega
  · intro a
    rfl

/-- Witness for the amended C5 at the spec's sample points 8 → 6 (RISC-V
build) and 8 → 8 (fallback build). -/
theorem riscv_optimal_init_threads_spec_witness :
    riscv_optimal_init_threads_riscv 8 = max 1 (8 * 3 / 4) ∧
    riscv_optimal_init_threads_fallback 8 = 8 :=
  ⟨riscv_optimal_init_threads_spec.1 8 (by decide),
   riscv_optimal_init_threads_spec.2 8⟩

/-! ## Claim C6 -/

/-- Claim C6, counterexample: on the non-RISC-V build get_optimal_cpu_core
returns the thread id unchanged, so coreIndex(5, 4) = 5 there, not
5 mod max 1 4 = 1 as the claim requires of every build variant. -/
theorem get_optimal_cpu_core_counterexample :
    get_optimal_cpu_core_fallback 5 ≠ Int.emod 5 (max 1 4) := by decide

/-- Claim C6, amended: on the XMRIG_RISCV build, for every nonnegative
threadId and every reported processor count (zero and negative included),
get_optimal_cpu_core equals threadId mod max 1 onlineProcessors; the
non-RISC-V fallback build returns threadId unchanged. -/
theorem get_optimal_cpu_core_spec :
    (∀ tid n : Int, 0 ≤ tid →
      get_optimal_cpu_core_riscv tid n = Int.emod tid (max 1 n)) ∧
    (∀ tid : Int, get_optimal_cpu_core_fallback tid = tid) := by
  constructor
  · intro tid n htid
    have hdef : get_optimal_cpu_core_riscv tid n =
        Int.tmod tid (if n ≤ 0 then 1 else n) := rfl
    rw [hdef]
    by_cases hn : n ≤ 0
    · rw [if_pos hn, Int.tmod_eq_emod htid (by omega)]
      have hmax : max 1 n = 1 := by omega
      rw [hmax]
      rfl
    · rw [if_neg hn, Int.tmod_eq_emod htid (by omega)]
      have hmax : max 1 n = n := by omega
      rw [hmax]
      rfl
  · intro tid
    rfl

/-- Witness for the amended C6 at the spec's sample points: coreIndex(5,4) =
1, coreIndex(7,0) = 0 (clamped), and the fallback identity. -/
theorem get_optimal_cpu_core_spec_witness :
    get_optimal_cpu_core_riscv 5 4 = Int.emod 5 (max 1 4) ∧
    get_optimal_cpu_core_riscv 7 0 = Int.emod 7 (max 1 0) ∧
    get_optimal_cpu_core_fallback 5 = 5 :=
  ⟨get_optimal_cpu_core_spec.1 5 4 (by decide),
   get_optimal_cpu_core_spec.1 7 0 (by decide),
   get_optimal_cpu_core_spec.2 5⟩

/-! ## Cipher round: shared helpers -/

/-- Byte decomposition of riscv_aes_enc_round: shift-and-mask byte extraction
rewritten as division and remainder. -/
theorem riscv_aes_enc_round_bytes (tables : riscv_aes_sbox_t) (input k : Nat) :
    riscv_aes_enc_round tables input k =
      (tables.sbox_enc (input % 256) ^^^ tables.sbox_enc (input / 256 % 256) ^^^
        tables.sbox_enc (input / 65536 % 256) ^^^
        tables.sbox_enc (input / 16777216 % 256)) ^^^ k := by
  have hmask : ∀ y : Nat, y &&& 0xFF = y % 256 := fun y =>
    Nat.and_pow_two_sub_one_eq_mod y 8
  show (tables.sbox_enc ((input >>> 0) &&& 0xFF) ^^^
      tables.sbox_enc ((input >>> 8) &&& 0xFF) ^^^
      tables.sbox_enc ((input >>> 16) &&& 0xFF) ^^^
      tables.sbox_enc ((input >>> 24) &&& 0xFF)) ^^^ k = _
  rw [hmask, hmask, hmask, hmask, Nat.shiftRight_eq_div_pow,
    Nat.shiftRight_eq_div_pow, Nat.shiftRight_eq_div_pow, Nat.shiftRight_eq_div_pow]
  norm_num

/-- Applying riscv_aes_enc_round to a word assembled from four in-range bytes
yields the XOR of the four table entries and the key. -/
theorem riscv_aes_enc_round_assembleLE (tables : riscv_aes_sbox_t)
    (b0 b1 b2 b3 k : Nat) (h0 : b0 < 256) (h1 : b1 < 256) (h2 : b2 < 256)
    (h3 : b3 < 256) :
    riscv_aes_enc_round tables (assembleLE [b0, b1, b2, b3]) k =
      (tables.sbox_enc b0 ^^^ tables.sbox_enc b1 ^^^ tables.sbox_enc b2 ^^^
        tables.sbox_enc b3) ^^^ k := by
  rw [riscv_aes_enc_round_bytes]
  have e : assembleLE [b0, b1, b2, b3] = b0 + 256 * b1 + 65536 * b2 + 16777216 * b3 := by
    show b0 + 256 * (b1 + 256 * (b2 + 256 * (b3 + 256 * 0))) = _
    ring
  rw [e]
  have d0 : (b0 + 256 * b1 + 65536 * b2 + 16777216 * b3) % 256 = b0 := by omega
  have d1 : (b0 + 256 * b1 + 65536 * b2 + 16777216 * b3) / 256 % 256 = b1 := by omega
  have d2 : (b0 + 256 * b1 + 65536 * b2 + 16777216 * b3) / 65536 % 256 = b2 := by omega
  have d3 : (b0 + 256 * b1 + 65536 * b2 + 16777216 * b3) / 16777216 % 256 = b3 := by omega
  rw [d0, d1, d2, d3]

/-- xorList is invariant under permutation of its list. -/
theorem xorList_perm {l1 l2 : List Nat} (h : l1.Perm l2) : xorList l1 = xorList l2 := by
  induction h with
  | nil => rfl
  | cons x _ ih =>
    show x ^^^ xorList _ = x ^^^ xorList _
    rw [ih]
  | swap x y l =>
    show y ^^^ (x ^^^ xorList l) = x ^^^ (y ^^^ xorList l)
    rw [← Nat.xor_assoc, ← Nat.xor_assoc, Nat.xor_comm y x]
  | trans _ _ ih1 ih2 =>
    exact ih1.trans ih2

/-- xorList of a four-element list, left-associated. -/
theorem xorList_four (x0 x1 x2 x3 : Nat) :
    xorList [x0, x1, x2, x3] = x0 ^^^ x1 ^^^ x2 ^^^ x3 := by
  show x0 ^^^ (x1 ^^^ (x2 ^^^ (x3 ^^^ 0))) = x0 ^^^ x1 ^^^ x2 ^^^ x3
  rw [Nat.xor_zero, Nat.xor_assoc, Nat.xor_assoc]

/-! ## Claim C8 -/

/-- Claim C8: for every table contents, every input and every round key, the
software cipher-round fallback returns
sbox_enc[byte0] XOR sbox_enc[byte1] XOR sbox_enc[byte2] XOR sbox_enc[byte3]
XOR roundKey, where byte0..byte3 are the input's bytes from least to most
significant. -/
theorem riscv_aes_enc_round_spec (tables : riscv_aes_sbox_t) (input round_key : Nat) :
    riscv_aes_enc_round tables input round_key =
      (tables.sbox_enc (input % 256) ^^^ tables.sbox_enc (input / 256 % 256) ^^^
        tables.sbox_enc (input / 65536 % 256) ^^^
        tables.sbox_enc (input / 16777216 % 256)) ^^^ round_key :=
  riscv_aes_enc_round_bytes tables input round_key

/-! ## Claim C9 -/

/-- Claim C9: riscv_aes_enc_round cannot distinguish inputs whose four bytes
are permutations of each other: assembling any permutation of the same four
bytes yields the same round output, for every table and round key. -/
theorem riscv_aes_enc_round_byte_perm (tables : riscv_aes_sbox_t) (k : Nat)
    (b0 b1 b2 b3 c0 c1 c2 c3 : Nat)
    (hlt : ∀ x ∈ [b0, b1, b2, b3], x < 256)
    (hperm : List.Perm [b0, b1, b2, b3] [c0, c1, c2, c3]) :
    riscv_aes_enc_round tables (assembleLE [b0, b1, b2, b3]) k =
      riscv_aes_enc_round tables (assembleLE [c0, c1, c2, c3]) k := by
  have hltc : ∀ x ∈ [c0, c1, c2, c3], x < 256 := fun x hx =>
    hlt x (hperm.mem_iff.mpr hx)
  rw [riscv_aes_enc_round_assembleLE tables b0 b1 b2 b3 k
      (hlt b0 (by simp)) (hlt b1 (by simp)) (hlt b2 (by simp)) (hlt b3 (by simp)),
    riscv_aes_enc_round_assembleLE tables c0 c1 c2 c3 k
      (hltc c0 (by simp)) (hltc c1 (by simp)) (hltc c2 (by simp)) (hltc c3 (by simp))]
  congr 1
  rw [← xorList_four, ← xorList_four]
  exact xorList_perm (hperm.map tables.sbox_enc)

/-- Witness for C9: byte-reversing the input 0x04030201 leaves the round
output unchanged (with a sample table). -/
theorem riscv_aes_enc_round_byte_perm_witness :
    riscv_aes_enc_round ⟨fun b => b * b + 7, fun b => b⟩ (assembleLE [1, 2, 3, 4]) 5 =
      riscv_aes_enc_round ⟨fun b => b * b + 7, fun b => b⟩ (assembleLE [4, 3, 2, 1]) 5 :=
  riscv_aes_enc_round_byte_perm ⟨fun b => b * b + 7, fun b => b⟩ 5
    1 2 3 4 4 3 2 1 (by decide) (by decide)

/-! ## Rotation: shared helpers -/

/-- Disjoint OR is addition: if a has no bits at or above position n, then
OR with a multiple of 2^n is addition. -/
theorem lor_eq_add_of_lt (n a b : Nat) (h : a < 2 ^ n) :
    a ||| b * 2 ^ n = a + b * 2 ^ n := by
  apply Nat.eq_of_testBit_eq
  intro i
  rw [Nat.testBit_lor, ← Nat.shiftLeft_eq b n,
    show a + b <<< n = 2 ^ n * b + a by rw [Nat.shiftLeft_eq]; ring,
    Nat.testBit_mul_pow_two_add b h i]
  by_cases hin : i < n
  · rw [if_pos hin]
    have hge : ¬(i ≥ n) := by omega
    simp [Nat.testBit_shiftLeft, hge]
  · rw [if_neg hin]
    have ha : a.testBit i = false :=
      Nat.testBit_eq_false_of_lt (lt_of_lt_of_le h (Nat.pow_le_pow_right (by norm_num) (by omega)))
    have hge : i ≥ n := by omega
    simp [Nat.testBit_shiftLeft, ha, hge]

/-- A 32-bit value shifted right by r ≤ 32 fits in 32 - r bits. -/
theorem div_two_pow_lt (x r : Nat) (hx : x < 2 ^ 32) (hr : r ≤ 32) :
    x / 2 ^ r < 2 ^ (32 - r) := by
  rw [Nat.div_lt_iff_lt_mul (Nat.two_pow_pos r), ← pow_add]
  have h32 : 32 - r + r = 32 := by omega
  rw [h32]
  exact hx

/-- The rotated sum fits in 32 bits. -/
theorem rotr_sum_lt (x r : Nat) (hx : x < 2 ^ 32) (hr : r ≤ 32) :
    x / 2 ^ r + x % 2 ^ r * 2 ^ (32 - r) < 2 ^ 32 := by
  have hdiv := div_two_pow_lt x r hx hr
  have hmod : x % 2 ^ r ≤ 2 ^ r - 1 := by
    have := Nat.mod_lt x (Nat.two_pow_pos r)
    omega
  have hmul : x % 2 ^ r * 2 ^ (32 - r) ≤ (2 ^ r - 1) * 2 ^ (32 - r) :=
    Nat.mul_le_mul_right _ hmod
  have hsub : (2 ^ r - 1) * 2 ^ (32 - r) = 2 ^ r * 2 ^ (32 - r) - 2 ^ (32 - r) := by
    rw [Nat.sub_mul, Nat.one_mul]
  have hK : 2 ^ (32 - r) ≤ 2 ^ r * 2 ^ (32 - r) :=
    Nat.le_mul_of_pos_left _ (Nat.two_pow_pos r)
  have hsplit : (2 : Nat) ^ r * 2 ^ (32 - r) = 2 ^ 32 := by
    rw [← pow_add]
    congr 1
    omega
  omega

/-- Closed form of the scalar 32-bit rotation: the high part moves down and
the low part moves up. -/
theorem riscv_rotr32_eq (x r : Nat) (hx : x < 2 ^ 32) (hr : r ≤ 32) :
    riscv_rotr32 x r = x / 2 ^ r + x % 2 ^ r * 2 ^ (32 - r) := by
  show ((x >>> r) ||| (x <<< (32 - r))) % 2 ^ 32 = _
  rw [Nat.shiftRight_eq_div_pow, Nat.shiftLeft_eq,
    lor_eq_add_of_lt (32 - r) (x / 2 ^ r) x (div_two_pow_lt x r hx hr)]
  have hsplit : (2 : Nat) ^ 32 = 2 ^ r * 2 ^ (32 - r) := by
    rw [← pow_add]
    congr 1
    omega
  have hmul : x * 2 ^ (32 - r) % 2 ^ 32 = x % 2 ^ r * 2 ^ (32 - r) := by
    rw [hsplit, Nat.mul_mod_mul_right]
  rw [Nat.add_mod, hmul,
    Nat.mod_eq_of_lt (lt_of_le_of_lt (Nat.div_le_self x (2 ^ r)) hx),
    Nat.mod_eq_of_lt (rotr_sum_lt x r hx hr)]

/-! ## Claim C7 -/

/-- Claim C7: for every 32-bit x, rotating right by 0 is the identity, and
for 0 < r < 32 rotating right by r and then by 32 - r returns x. -/
theorem riscv_rotr32_spec :
    (∀ x, x < 2 ^ 32 → riscv_rotr32 x 0 = x) ∧
    (∀ x r, x < 2 ^ 32 → 0 < r → r < 32 →
      riscv_rotr32 (riscv_rotr32 x r) (32 - r) = x) := by
  constructor
  · intro x hx
    rw [riscv_rotr32_eq x 0 hx (by omega)]
    simp [Nat.mod_one]
  · intro x r hx h0 hr
    have hr32 : r ≤ 32 := by omega
    have hdiv := div_two_pow_lt x r hx hr32
    rw [riscv_rotr32_eq x r hx hr32,
      riscv_rotr32_eq _ (32 - r) (rotr_sum_lt x r hx hr32) (by omega)]
    have hrr : 32 - (32 - r) = r := by omega
    rw [hrr]
    have hq : (x / 2 ^ r + x % 2 ^ r * 2 ^ (32 - r)) / 2 ^ (32 - r) = x % 2 ^ r := by
      rw [Nat.add_mul_div_right _ _ (Nat.two_pow_pos (32 - r)), Nat.div_eq_of_lt hdiv]
      omega
    have hm : (x / 2 ^ r + x % 2 ^ r * 2 ^ (32 - r)) % 2 ^ (32 - r) = x / 2 ^ r := by
      rw [Nat.add_mul_mod_self_right]
      exact Nat.mod_eq_of_lt hdiv
    rw [hq, hm]
    exact Nat.mod_add_div' x (2 ^ r)

/-- Witness for C7 at x = 12345, r = 7. -/
theorem riscv_rotr32_spec_witness :
    riscv_rotr32 12345 0 = 12345 ∧
    riscv_rotr32 (riscv_rotr32 12345 7) (32 - 7) = 12345 :=
  ⟨riscv_rotr32_spec.1 12345 (by decide),
   riscv_rotr32_spec.2 12345 7 (by decide) (by decide) (by decide)⟩

/-! ## Bulk fill: shared helpers -/

/-- Pointwise reading of a 32-bit little-endian store. -/
theorem setWord32LE_apply (m : Nat → Nat) (base pattern i : Nat) :
    setWord32LE m base pattern i =
      if base ≤ i ∧ i < base + 4 then (pattern >>> (8 * (i - base))) &&& 0xFF
      else m i := by
  simp only [setWord32LE, setByte]
  by_cases h3 : i = base + 3
  · subst h3
    rw [if_pos rfl, if_pos ⟨by omega, by omega⟩]
    have hd : base + 3 - base = 3 := by omega
    rw [hd]
  · rw [if_neg h3]
    by_cases h2 : i = base + 2
    · subst h2
      rw [if_pos rfl, if_pos ⟨by omega, by omega⟩]
      have hd : base + 2 - base = 2 := by omega
      rw [hd]
    · rw [if_neg h2]
      by_cases h1 : i = base + 1
      · subst h1
        rw [if_pos rfl, if_pos ⟨by omega, by omega⟩]
        have hd : base + 1 - base = 1 := by omega
        rw [hd]
      · rw [if_neg h1]
        by_cases h0 : i = base
        · rw [h0, if_pos rfl, if_pos ⟨by omega, by omega⟩]
          have hd : base - base = 0 := by omega
          rw [hd, Nat.mul_zero, Nat.shiftRight_zero]
        · rw [if_neg h0, if_neg (by omega)]

/-- Pointwise reading of the RVV pattern-word loop: offsets 4*w..4*(w+fuel)-1
hold the pattern byte selected by the offset mod 4, everything else is
untouched. -/
theorem rvvFillWords_apply (pattern : Nat) :
    ∀ (fuel : Nat) (m : Nat → Nat) (w i : Nat),
      rvvFillWords pattern m w fuel i =
        if 4 * w ≤ i ∧ i < 4 * (w + fuel) then (pattern >>> (8 * (i % 4))) &&& 0xFF
        else m i := by
  intro fuel
  induction fuel with
  | zero =>
    intro m w i
    show m i = _
    rw [if_neg (by omega)]
  | succ f ih =>
    intro m w i
    show rvvFillWords pattern (setWord32LE m (4 * w) pattern) (w + 1) f i = _
    rw [ih, setWord32LE_apply]
    by_cases hin : 4 * (w + 1) ≤ i ∧ i < 4 * (w + 1 + f)
    · rw [if_pos hin, if_pos (by omega)]
    · rw [if_neg hin]
      by_cases hw : 4 * w ≤ i ∧ i < 4 * w + 4
      · rw [if_pos hw, if_pos (by omega)]
        have hd : i - 4 * w = i % 4 := by omega
        rw [hd]
      · rw [if_neg hw, if_neg (by omega)]

/-! ## Claim C1 -/

/-- Claim C1, counterexample: with destination all zero, pattern 0x00000100
and length 4, the RVV build stores the pattern's second byte 0x01 at offset
1 while the scalar fallback build (memset with the low pattern byte 0x00)
stores 0x00 there, so the two builds are not byte-identical for every
32-bit pattern. -/
theorem riscv_memset_rvv_counterexample :
    riscv_memset_rvv_rvv (fun _ => 0) 256 4 1 ≠
      riscv_memset_rvv_scalar (fun _ => 0) 256 4 1 := by decide

/-- Claim C1, amended: the RVV build and the scalar fallback build of
riscv_memset_rvv produce byte-identical destination contents for every
destination, length and pattern whose four bytes all equal its lowest byte
(in particular for every repeated-byte pattern); for patterns with unequal
bytes the builds differ in general. -/
theorem riscv_memset_rvv_builds_agree (m : Nat → Nat) (pattern size : Nat)
    (h : ∀ k, k < 4 → (pattern >>> (8 * k)) &&& 0xFF = pattern &&& 0xFF)
    (i : Nat) :
    riscv_memset_rvv_rvv m pattern size i = riscv_memset_rvv_scalar m pattern size i := by
  have hb : ∀ j : Nat, (pattern >>> (8 * (j % 4))) &&& 0xFF = pattern &&& 0xFF :=
    fun j => h (j % 4) (Nat.mod_lt _ (by omega))
  have hscalar : riscv_memset_rvv_scalar m pattern size i =
      if 0 ≤ i ∧ i < 0 + size then pattern &&& 0xFF else m i := rfl
  by_cases hrem : size % 4 = 0
  · have hdef : riscv_memset_rvv_rvv m pattern size i =
        rvvFillWords pattern m 0 (size / 4) i := by
      show (if size % 4 ≠ 0 then
          fillBytes (rvvFillWords pattern m 0 (size / 4)) (size - size % 4) (size % 4)
            (pattern &&& 0xFF)
        else rvvFillWords pattern m 0 (size / 4)) i = _
      rw [if_neg (by omega)]
    rw [hdef, hscalar, rvvFillWords_apply]
    by_cases hi : i < size
    · rw [if_pos (by omega), if_pos (by omega)]
      exact hb i
    · rw [if_neg (by omega), if_neg (by omega)]
  · have hdef : riscv_memset_rvv_rvv m pattern size i =
        fillBytes (rvvFillWords pattern m 0 (size / 4)) (size - size % 4) (size % 4)
          (pattern &&& 0xFF) i := by
      show (if size % 4 ≠ 0 then
          fillBytes (rvvFillWords pattern m 0 (size / 4)) (size - size % 4) (size % 4)
            (pattern &&& 0xFF)
        else rvvFillWords pattern m 0 (size / 4)) i = _
      rw [if_pos (by omega)]
    rw [hdef, hscalar, fillBytes_apply, rvvFillWords_apply]
    by_cases hi1 : size - size % 4 ≤ i ∧ i < size - size % 4 + size % 4
    · rw [if_pos hi1, if_pos (by omega)]
    · rw [if_neg hi1]
      by_cases hi2 : i < 4 * (size / 4)
      · rw [if_pos (by omega), if_pos (by omega)]
        exact hb i
      · rw [if_neg (by omega), if_neg (by omega)]

/-- Witness for the amended C1 at pattern 0x01010101 (all four bytes equal),
length 5, offset 2. -/
theorem riscv_memset_rvv_builds_agree_witness :
    riscv_memset_rvv_rvv (fun _ => 0) 16843009 5 2 =
      riscv_memset_rvv_scalar (fun _ => 0) 16843009 5 2 :=
  riscv_memset_rvv_builds_agree (fun _ => 0) 16843009 5 (by decide) 2

/-! ## Claim C3 (code_bug evidence) -/

/-- Claim C3: aligned_memcpy_opt should copy exactly the first L bytes and
leave the rest untouched.  On the XMRIG_RISCV build it does neither: the
word loop runs only for whole 64-byte groups and there is no tail handling,
so with dst all zero and src all one, L = 7 copies nothing (byte 0 stays
0), while L = 9 copies a full 64-byte group (byte 20, beyond the requested
range, becomes 1).  The non-RISC-V fallback (memcpy) behaves as the claim
states on the same inputs. -/
theorem aligned_memcpy_opt_divergence :
    aligned_memcpy_opt_riscv (fun _ => 0) (fun _ => 1) 7 0 = 0 ∧
    aligned_memcpy_opt_fallback (fun _ => 0) (fun _ => 1) 7 0 = 1 ∧
    aligned_memcpy_opt_riscv (fun _ => 0) (fun _ => 1) 9 20 = 1 ∧
    aligned_memcpy_opt_fallback (fun _ => 0) (fun _ => 1) 9 20 = 0 := by
  decide

/-! ## Bulk compare: shared helpers -/

/-- Byte scan of a buffer against itself is zero. -/
theorem memcmpBytesAux_self (a : Nat → Nat) : ∀ (len j : Nat), memcmpBytesAux a a j len = 0 := by
  intro len
  induction len with
  | zero =>
    intro j
    rfl
  | succ l ih =>
    intro j
    show (if a j ≠ a j then _ else memcmpBytesAux a a (j + 1) l) = 0
    rw [if_neg (fun hc => hc rfl)]
    exact ih (j + 1)

/-- A byte scan that starts at or before the first differing byte returns
exactly the difference of that byte pair. -/
theorem memcmpBytesAux_first_diff (a b : Nat → Nat) (idx : Nat)
    (hne : a idx ≠ b idx) (hpre : ∀ k, k < idx → a k = b k) :
    ∀ (len j : Nat), j ≤ idx → idx < j + len →
      memcmpBytesAux a b j len = (a idx : Int) - (b idx : Int) := by
  intro len
  induction len with
  | zero =>
    intro j h1 h2
    omega
  | succ l ih =>
    intro j h1 h2
    show (if a j ≠ b j then (a j : Int) - (b j : Int) else memcmpBytesAux a b (j + 1) l) = _
    by_cases hj : j = idx
    · subst hj
      rw [if_pos hne]
    · have heq : a j = b j := hpre j (by omega)
      rw [if_neg (fun hc => hc heq)]
      exact ih (j + 1) (by omega) (by omega)

/-- An inner byte scan that starts at or before the first differing byte and
covers it finds exactly that difference. -/
theorem scanBytesOpt_first_diff (a b : Nat → Nat) (idx : Nat)
    (hne : a idx ≠ b idx) (hpre : ∀ k, k < idx → a k = b k) :
    ∀ (len j : Nat), j ≤ idx → idx < j + len →
      scanBytesOpt a b j len = some ((a idx : Int) - (b idx : Int)) := by
  intro len
  induction len with
  | zero =>
    intro j h1 h2
    omega
  | succ l ih =>
    intro j h1 h2
    show (if a j ≠ b j then some ((a j : Int) - (b j : Int)) else scanBytesOpt a b (j + 1) l) = _
    by_cases hj : j = idx
    · subst hj
      rw [if_pos hne]
    · have heq : a j = b j := hpre j (by omega)
      rw [if_neg (fun hc => hc heq)]
      exact ih (j + 1) (by omega) (by omega)

/-- Equal underlying bytes give equal little-endian words. -/
theorem wordAtAux_congr (a b : Nat → Nat) :
    ∀ (k base : Nat), (∀ j, j < k → a (base + j) = b (base + j)) →
      wordAtAux a base k = wordAtAux b base k := by
  intro k
  induction k with
  | zero =>
    intro base _
    rfl
  | succ k ih =>
    intro base h
    show a base + 256 * wordAtAux a (base + 1) k = b base + 256 * wordAtAux b (base + 1) k
    have h0 := h 0 (by omega)
    rw [Nat.add_zero] at h0
    rw [h0, ih (base + 1) (fun j hj => by
      have hs := h (j + 1) (by omega)
      rwa [show base + (j + 1) = base + 1 + j by omega] at hs)]

/-- Base-256 digits below 256 are determined by the word: equal words over
in-range bytes force equal bytes. -/
theorem wordAtAux_inj (a b : Nat → Nat) :
    ∀ (k base : Nat), (∀ j, j < k → a (base + j) < 256) →
      (∀ j, j < k → b (base + j) < 256) →
      wordAtAux a base k = wordAtAux b base k →
      ∀ j, j < k → a (base + j) = b (base + j) := by
  intro k
  induction k with
  | zero =>
    intro base _ _ _ j hj
    omega
  | succ k ih =>
    intro base ha hb heq j hj
    have ha0 : a (base + 0) < 256 := ha 0 (by omega)
    have hb0 : b (base + 0) < 256 := hb 0 (by omega)
    rw [Nat.add_zero] at ha0 hb0
    have heq2 : a base + 256 * wordAtAux a (base + 1) k =
        b base + 256 * wordAtAux b (base + 1) k := heq
    have hfirst : a base = b base := by omega
    have hrest : wordAtAux a (base + 1) k = wordAtAux b (base + 1) k := by omega
    rcases j with _ | jj
    · rw [Nat.add_zero]
      exact hfirst
    · have hj2 := ih (base + 1)
        (fun t ht => by
          have hs := ha (t + 1) (by omega)
          rwa [show base + (t + 1) = base + 1 + t by omega] at hs)
        (fun t ht => by
          have hs := hb (t + 1) (by omega)
          rwa [show base + (t + 1) = base + 1 + t by omega] at hs)
        hrest jj (by omega)
      rwa [show base + 1 + jj = base + (jj + 1) by omega] at hj2

/-- The qword loop of riscv_memcmp_fast on a buffer against itself is
zero. -/
theorem memcmpFastAux_self (a : Nat → Nat) (n : Nat) :
    ∀ (fuel i : Nat), memcmpFastAux a a n i fuel = 0 := by
  intro fuel
  induction fuel with
  | zero =>
    intro i
    show memcmpBytes a a (8 * i) n = 0
    exact memcmpBytesAux_self a (n - 8 * i) (8 * i)
  | succ f ih =>
    intro i
    show (if wordAt a (8 * i) = wordAt a (8 * i) then memcmpFastAux a a n (i + 1) f else _) = 0
    rw [if_pos rfl]
    exact ih (i + 1)

/-- The qword loop of riscv_memcmp_fast returns exactly the difference of the
first differing byte pair, provided the scan starts at or before it and the
loop together with the remainder covers the whole range. -/
theorem memcmpFastAux_first_diff (a b : Nat → Nat) (n idx : Nat)
    (ha : ∀ j, j < n → a j < 256) (hb : ∀ j, j < n → b j < 256)
    (hpre : ∀ k, k < idx → a k = b k) (hne : a idx ≠ b idx) (hidx : idx < n) :
    ∀ (fuel i : Nat), 8 * (i + fuel) ≤ n → 8 * i ≤ idx →
      memcmpFastAux a b n i fuel = (a idx : Int) - (b idx : Int) := by
  intro fuel
  induction fuel with
  | zero =>
    intro i hfu hi
    show memcmpBytes a b (8 * i) n = _
    exact memcmpBytesAux_first_diff a b idx hne hpre (n - 8 * i) (8 * i) hi (by omega)
  | succ f ih =>
    intro i hfu hi
    show (if wordAt a (8 * i) = wordAt b (8 * i) then memcmpFastAux a b n (i + 1) f
      else match scanBytesOpt a b (8 * i) (min (8 * (i + 1)) n - 8 * i) with
        | some d => d
        | none => memcmpFastAux a b n (i + 1) f) = _
    by_cases hword : idx < 8 * (i + 1)
    · have hwne : wordAt a (8 * i) ≠ wordAt b (8 * i) := by
        intro hw
        have hbyte := wordAtAux_inj a b 8 (8 * i)
          (fun j hj => ha (8 * i + j) (by omega))
          (fun j hj => hb (8 * i + j) (by omega))
          hw (idx - 8 * i) (by omega)
        rw [show 8 * i + (idx - 8 * i) = idx by omega] at hbyte
        exact hne hbyte
      rw [if_neg hwne,
        scanBytesOpt_first_diff a b idx hne hpre (min (8 * (i + 1)) n - 8 * i) (8 * i)
          hi (by omega)]
    · have hweq : wordAt a (8 * i) = wordAt b (8 * i) := by
        apply wordAtAux_congr
        intro j hj
        exact hpre (8 * i + j) (by omega)
      rw [if_pos hweq]
      exact ih (i + 1) (by omega) (by omega)

/-- The RVV word-equality scan reports no difference over equal words. -/
theorem rvvWordsDiffer_eq_false (a b : Nat → Nat) :
    ∀ count, (∀ w, w < count → wordAt a (8 * w) = wordAt b (8 * w)) →
      rvvWordsDiffer a b count = false := by
  intro count
  induction count with
  | zero =>
    intro _
    rfl
  | succ c ih =>
    intro h
    show (rvvWordsDiffer a b c || (wordAt a (8 * c) != wordAt b (8 * c))) = false
    rw [ih (fun w hw => h w (by omega)), h c (by omega)]
    simp

/-- The RVV word-equality scan reports a difference when some covered word
differs. -/
theorem rvvWordsDiffer_eq_true (a b : Nat → Nat) :
    ∀ count w, w < count → wordAt a (8 * w) ≠ wordAt b (8 * w) →
      rvvWordsDiffer a b count = true := by
  intro count
  induction count with
  | zero =>
    intro w hw _
    omega
  | succ c ih =>
    intro w hw hne
    show (rvvWordsDiffer a b c || (wordAt a (8 * c) != wordAt b (8 * c))) = true
    by_cases hwc : w = c
    · subst hwc
      simp [hne]
    · rw [ih w (by omega) hne]
      simp

/-- riscv_memcmp_rvv (RVV build) returns exactly the first byte
difference. -/
theorem riscv_memcmp_rvv_first_diff (a b : Nat → Nat) (n idx : Nat)
    (ha : ∀ j, j < n → a j < 256) (hb : ∀ j, j < n → b j < 256)
    (hpre : ∀ k, k < idx → a k = b k) (hne : a idx ≠ b idx) (hidx : idx < n) :
    riscv_memcmp_rvv a b n = (a idx : Int) - (b idx : Int) := by
  show (if rvvWordsDiffer a b (n / 8) then memcmpModel a b n
    else memcmpBytes a b (8 * (n / 8)) n) = _
  by_cases hcase : idx < 8 * (n / 8)
  · have hw : wordAt a (8 * (idx / 8)) ≠ wordAt b (8 * (idx / 8)) := by
      intro hweq
      have hbyte := wordAtAux_inj a b 8 (8 * (idx / 8))
        (fun j hj => ha (8 * (idx / 8) + j) (by omega))
        (fun j hj => hb (8 * (idx / 8) + j) (by omega))
        hweq (idx - 8 * (idx / 8)) (by omega)
      rw [show 8 * (idx / 8) + (idx - 8 * (idx / 8)) = idx by omega] at hbyte
      exact hne hbyte
    rw [if_pos (rvvWordsDiffer_eq_true a b (n / 8) (idx / 8) (by omega) hw)]
    exact memcmpBytesAux_first_diff a b idx hne hpre n 0 (by omega) (by omega)
  · have hf : rvvWordsDiffer a b (n / 8) = false := by
      apply rvvWordsDiffer_eq_false
      intro w hw
      apply wordAtAux_congr
      intro j hj
      exact hpre (8 * w + j) (by omega)
    rw [if_neg (by simp [hf])]
    exact memcmpBytesAux_first_diff a b idx hne hpre (n - 8 * (n / 8)) (8 * (n / 8))
      (by omega) (by omega)

/-! ## Claim C4 -/

/-- Claim C4: every bulk-compare variant returns exactly 0 on a buffer
compared with itself, and when the first differing byte of two byte buffers
is at index idx < n, the sign of the result equals the sign of
a idx - b idx, for riscv_memcmp_fast (RISC-V build and memcmp fallback) and
riscv_memcmp_rvv (RVV build and memcmp fallback). -/
theorem bulkCompare_spec :
    (∀ (a : Nat → Nat) (n : Nat),
      riscv_memcmp_fast a a n = 0 ∧ riscv_memcmp_rvv a a n = 0 ∧
      riscv_memcmp_fast_fallback a a n = 0 ∧ riscv_memcmp_rvv_scalar a a n = 0) ∧
    (∀ (a b : Nat → Nat) (n idx : Nat),
      (∀ j, j < n → a j < 256) → (∀ j, j < n → b j < 256) →
      (∀ k, k < idx → a k = b k) → a idx ≠ b idx → idx < n →
      Int.sign (riscv_memcmp_fast a b n) = Int.sign ((a idx : Int) - (b idx : Int)) ∧
      Int.sign (riscv_memcmp_rvv a b n) = Int.sign ((a idx : Int) - (b idx : Int)) ∧
      Int.sign (riscv_memcmp_fast_fallback a b n) = Int.sign ((a idx : Int) - (b idx : Int)) ∧
      Int.sign (riscv_memcmp_rvv_scalar a b n) = Int.sign ((a idx : Int) - (b idx : Int))) := by
  constructor
  · intro a n
    refine ⟨memcmpFastAux_self a n (n / 8) 0, ?_, memcmpBytesAux_self a n 0,
      memcmpBytesAux_self a n 0⟩
    show (if rvvWordsDiffer a a (n / 8) then memcmpModel a a n
      else memcmpBytes a a (8 * (n / 8)) n) = 0
    rw [rvvWordsDiffer_eq_false a a (n / 8) (fun w _ => rfl)]
    show memcmpBytes a a (8 * (n / 8)) n = 0
    exact memcmpBytesAux_self a (n - 8 * (n / 8)) (8 * (n / 8))
  · intro a b n idx ha hb hpre hne hidx
    have hfast : riscv_memcmp_fast a b n = (a idx : Int) - (b idx : Int) :=
      memcmpFastAux_first_diff a b n idx ha hb hpre hne hidx (n / 8) 0 (by omega) (by omega)
    have hrvv := riscv_memcmp_rvv_first_diff a b n idx ha hb hpre hne hidx
    have hfall : riscv_memcmp_fast_fallback a b n = (a idx : Int) - (b idx : Int) :=
      memcmpBytesAux_first_diff a b idx hne hpre n 0 (by omega) (by omega)
    have hscal : riscv_memcmp_rvv_scalar a b n = (a idx : Int) - (b idx : Int) :=
      memcmpBytesAux_first_diff a b idx hne hpre n 0 (by omega) (by omega)
    rw [hfast, hrvv, hfall, hscal]
    exact ⟨rfl, rfl, rfl, rfl⟩

/-- Witness for C4: reflexivity at a constant buffer, and the sign property
for buffers first differing at index 1 with a 1 = 3 > b 1 = 0, over length
3. -/
theorem bulkCompare_spec_witness :
    riscv_memcmp_fast (fun _ => 5) (fun _ => 5) 4 = 0 ∧
    Int.sign (riscv_memcmp_fast (fun k => if k = 1 then 3 else 0) (fun _ => 0) 3) =
      Int.sign ((3 : Int) - (0 : Int)) ∧
    Int.sign (riscv_memcmp_rvv (fun k => if k = 1 then 3 else 0) (fun _ => 0) 3) =
      Int.sign ((3 : Int) - (0 : Int)) :=
  ⟨(bulkCompare_spec.1 (fun _ => 5) 4).1,
   ((bulkCompare_spec.2 (fun k => if k = 1 then 3 else 0) (fun _ => 0) 3 1
      (by decide) (by decide) (by decide) (by decide) (by decide)).1),
   ((bulkCompare_spec.2 (fun k => if k = 1 then 3 else 0) (fun _ => 0) 3 1
      (by decide) (by decide) (by decide) (by decide) (by decide)).2.1)⟩

end XmrigRiscv
